import Mathlib

/-!
Verification of the in-memory hash-linked source chain
(`src/hc_core/src/source_chain/memory/mod.rs`).

The chain type and its operations (`new`, `push`, `iter`, `validate`, `get`,
`get_entry`) are translated directly from that file.  The record types
`Entry`, `Header`, `Pair` and their hashing / validity functions live in a
module of the repository that is not part of the excerpt, so they are
modelled from the design document (sections 2, 3 and 4.1).
-/

set_option autoImplicit false

namespace HC

/-- Modelled from the spec: an `Entry` is an opaque, content-addressable unit
of application data; the core only needs a stable content hash and equality.
The payload is modelled as a natural number. -/
structure Entry where
  content : Nat
deriving DecidableEq

/-- Modelled from the spec: the content hash of an Entry is a deterministic
fingerprint of the payload used as its identity (content-addressing); it is
modelled as an injective deterministic function of the payload. -/
def Entry.hash (e : Entry) : Nat :=
  e.content

/-- Modelled from the spec: a `Header` carries an optional reference to the
previous Header's hash (absent only for the genesis record) and the reference
to the Entry it describes (the Entry's content hash). -/
structure Header where
  previous : Option Nat
  entry : Nat
deriving DecidableEq

/-- Modelled from the spec: the Header's own content hash, a deterministic
function of its fields, modelled as an injective pairing of the fields. -/
def Header.hash (h : Header) : Nat :=
  Nat.pair (match h.previous with | none => 0 | some v => v + 1) h.entry

/-- Modelled from the spec: Header validity requires the previous-reference
field to be structurally well-formed (either explicitly empty or a valid hash
value) — automatic in this typed model — so the check always succeeds. -/
def Header.validate (_h : Header) : Bool :=
  true

/-- Modelled from the spec: a `Pair` is the atomic chain record, one Header
plus the Entry it describes. -/
structure Pair where
  header : Header
  entry : Entry
deriving DecidableEq

/-- Modelled from the spec: Pair validity is the logical AND of Header
validity, Entry validity and cross-consistency.  Entry validity is
application-defined and opaque to the core, so it is passed in as the boolean
function `ev`.  Cross-consistency requires the Entry-reference carried by the
Header to equal the Entry's content hash. -/
def Pair.validate (ev : Entry → Bool) (p : Pair) : Bool :=
  p.header.validate && ev p.entry && (p.header.entry == p.entry.hash)

/-- `SourceChain` from the source: a vector of Pairs, position 0 being the
chain head (most recently appended record). -/
structure SourceChain where
  pairs : List Pair
deriving DecidableEq

/-- `SourceChain::new` from the source: the chain starts with no pairs. -/
def SourceChain.new : SourceChain :=
  ⟨[]⟩

/-- `SourceChain::get` from the source: scan the pairs front to back and
return the first whose Header hash equals `header_hash`
(`pairs.clone().into_iter().filter(..).next()`). -/
def SourceChain.get (c : SourceChain) (header_hash : Nat) : Option Pair :=
  c.pairs.find? (fun p => p.header.hash == header_hash)

/-- `SourceChain::get_entry` from the source: scan the pairs front to back and
return the first whose Entry hash equals `entry_hash`. -/
def SourceChain.get_entry (c : SourceChain) (entry_hash : Nat) : Option Pair :=
  c.pairs.find? (fun p => p.entry.hash == entry_hash)

/-- `SourceChain::iter` from the source: references pairs from top (most
recent) to bottom (genesis) — the stored order. -/
def SourceChain.iter (c : SourceChain) : List Pair :=
  c.pairs

/-- `IntoIterator for SourceChain` from the source: the consuming traversal
yields the owned pairs in stored order. -/
def SourceChain.intoIter (c : SourceChain) : List Pair :=
  c.pairs

/-- `SourceChain::validate` from the source:
`pairs.iter().fold(true, |acc, p| acc && p.validate())`. -/
def SourceChain.validate (ev : Entry → Bool) (c : SourceChain) : Bool :=
  c.pairs.foldl (fun acc p => acc && p.validate ev) true

/-- The `previous_pair` binding computed at the start of `SourceChain::push`:
the looked-up predecessor when the Header carries a previous reference. -/
def SourceChain.previousPair (c : SourceChain) (pair : Pair) : Option Pair :=
  match pair.header.previous with
  | some h => c.get h
  | none => none

/-- `SourceChain::push` from the source.  The guard is exactly the source's
`pair.validate() && self.pairs.first() == previous_pair.as_ref()`; when it
fails the source raises a fatal abort before any mutation, modelled here as
`none`; when it holds the pair is inserted at position 0. -/
def SourceChain.push (ev : Entry → Bool) (c : SourceChain) (pair : Pair) :
    Option SourceChain :=
  let previous_pair : Option Pair := c.previousPair pair
  if pair.validate ev && decide (c.pairs.head? = previous_pair) then
    some ⟨pair :: c.pairs⟩
  else
    none

/-- The state transition a caller of `push` observes: on success the insert at
position 0 has run; on failure the source aborts before reaching the insert
statement, so the chain still holds its previous pairs. -/
def SourceChain.pushState (ev : Entry → Bool) (c : SourceChain) (pair : Pair) :
    SourceChain × Bool :=
  match c.push ev pair with
  | some c2 => (c2, true)
  | none => (c, false)

/-- A sequence of `push` calls, each required to succeed. -/
def SourceChain.pushList (ev : Entry → Bool) (c : SourceChain) :
    List Pair → Option SourceChain
  | [] => some c
  | p :: ps =>
    match c.push ev p with
    | some c2 => c2.pushList ev ps
    | none => none

/-- The chains reachable from `new` by successful pushes. -/
def SourceChain.Reachable (ev : Entry → Bool) (c : SourceChain) : Prop :=
  ∃ ps : List Pair, SourceChain.new.pushList ev ps = some c

/-- Adjacency in stored (head-to-genesis) order: the more recent Pair's Header
references the content hash of the next Pair's Header. -/
def Adj (a b : Pair) : Prop :=
  a.header.previous = some b.header.hash

/-! ### Basic lemmas about the operations -/

theorem push_eq_some_iff (ev : Entry → Bool) (c : SourceChain) (p : Pair)
    (c' : SourceChain) :
    c.push ev p = some c' ↔
      (p.validate ev = true ∧ c.pairs.head? = c.previousPair p ∧
        c' = ⟨p :: c.pairs⟩) := by
  unfold SourceChain.push
  rcases h1 : p.validate ev with _ | _ <;>
    by_cases h2 : c.pairs.head? = c.previousPair p <;>
      simp [h1, h2, eq_comm]

theorem get_eq_some (c : SourceChain) (h : Nat) (q : Pair)
    (hq : c.get h = some q) : q ∈ c.pairs ∧ q.header.hash = h := by
  refine ⟨List.mem_of_find?_eq_some hq, ?_⟩
  have := List.find?_some hq
  simpa [beq_iff_eq] using this

theorem get_eq_none (c : SourceChain) (h : Nat) :
    c.get h = none ↔ ∀ p ∈ c.pairs, p.header.hash ≠ h := by
  simp [SourceChain.get, List.find?_eq_none]

theorem get_entry_eq_none (c : SourceChain) (h : Nat) :
    c.get_entry h = none ↔ ∀ p ∈ c.pairs, p.entry.hash ≠ h := by
  simp [SourceChain.get_entry, List.find?_eq_none]

/-- A successful `find?` returns the first match: everything before it in the
list fails the test. -/
theorem find?_first {α : Type} (f : α → Bool) (l : List α) (a : α)
    (h : l.find? f = some a) :
    ∃ l1 l2, l = l1 ++ a :: l2 ∧ f a = true ∧ ∀ b ∈ l1, f b = false := by
  induction l with
  | nil => simp at h
  | cons x xs ih =>
    cases hfx : f x with
    | true =>
      rw [List.find?_cons_of_pos _ hfx] at h
      simp only [Option.some.injEq] at h
      exact ⟨[], xs, by simp [h], h ▸ hfx, by simp⟩
    | false =>
      rw [List.find?_cons_of_neg _ (by simp [hfx])] at h
      obtain ⟨l1, l2, hl, hfa, hall⟩ := ih h
      refine ⟨x :: l1, l2, by simp [hl], hfa, ?_⟩
      intro b hb
      rcases List.mem_cons.mp hb with rfl | hb
      · exact hfx
      · exact hall b hb

/-- A successful push onto a non-empty chain links to the head: the pushed
Header's `previous` reference is exactly the head Header's hash. -/
theorem push_some_links (ev : Entry → Bool) (c : SourceChain) (p : Pair)
    (c' : SourceChain) (q : Pair) (hq : c.pairs.head? = some q)
    (h : c.push ev p = some c') :
    p.header.previous = some q.header.hash := by
  obtain ⟨_, hhead, _⟩ := (push_eq_some_iff ev c p c').mp h
  unfold SourceChain.previousPair at hhead
  cases hp : p.header.previous with
  | none => rw [hp] at hhead; rw [hq] at hhead; cases hhead
  | some hv =>
    rw [hp] at hhead
    rw [hq] at hhead
    obtain ⟨_, hhash⟩ := get_eq_some c hv q hhead.symm
    rw [hhash]

/-- The pairs accumulated by a successful `pushList`. -/
theorem pushList_pairs (ev : Entry → Bool) (ps : List Pair) :
    ∀ (c c' : SourceChain), c.pushList ev ps = some c' →
      c'.pairs = ps.reverse ++ c.pairs := by
  induction ps with
  | nil => intro c c' h; simp [SourceChain.pushList] at h; simp [← h]
  | cons p ps ih =>
    intro c c' h
    rw [SourceChain.pushList] at h
    cases hp : c.push ev p with
    | none => rw [hp] at h; cases h
    | some c2 =>
      rw [hp] at h
      have h2 := ih c2 c' h
      obtain ⟨_, _, hc2⟩ := (push_eq_some_iff ev c p c2).mp hp
      rw [h2, hc2]
      simp

/-! ### Linkage invariants of reachable chains -/

theorem push_some_chain' (ev : Entry → Bool) (c c' : SourceChain) (p : Pair)
    (h : c.push ev p = some c') (hc : List.Chain' Adj c.pairs) :
    List.Chain' Adj c'.pairs := by
  obtain ⟨-, -, rfl⟩ := (push_eq_some_iff ev c p c').mp h
  show List.Chain' Adj (p :: c.pairs)
  cases hp : c.pairs with
  | nil => simp
  | cons q rest =>
    rw [hp] at hc
    refine List.chain'_cons.mpr ⟨?_, hc⟩
    exact push_some_links ev c p _ q (by rw [hp]; rfl) h

theorem pushList_chain' (ev : Entry → Bool) (ps : List Pair) :
    ∀ c c' : SourceChain, c.pushList ev ps = some c' →
      List.Chain' Adj c.pairs → List.Chain' Adj c'.pairs := by
  induction ps with
  | nil =>
    intro c c' h hc
    simp [SourceChain.pushList] at h
    rwa [← h]
  | cons p ps ih =>
    intro c c' h hc
    rw [SourceChain.pushList] at h
    cases hp : c.push ev p with
    | none => rw [hp] at h; cases h
    | some c2 =>
      rw [hp] at h
      exact ih c2 c' h (push_some_chain' ev c c2 p hp hc)

theorem reachable_chain' (ev : Entry → Bool) (c : SourceChain)
    (h : c.Reachable ev) : List.Chain' Adj c.pairs := by
  obtain ⟨ps, hps⟩ := h
  exact pushList_chain' ev ps SourceChain.new c hps (by simp [SourceChain.new])

/-- In this model the Header hash strictly dominates the hash it references,
so the hashes strictly decrease from head to genesis. -/
theorem adj_hash_lt (a b : Pair) (h : Adj a b) :
    b.header.hash < a.header.hash := by
  unfold Adj at h
  have h2 : a.header.hash = Nat.pair (b.header.hash + 1) a.header.entry := by
    simp [Header.hash, h]
  have h3 := Nat.left_le_pair (b.header.hash + 1) a.header.entry
  omega

theorem reachable_pairwise_hash_gt (ev : Entry → Bool) (c : SourceChain)
    (h : c.Reachable ev) :
    List.Pairwise (fun a b => b.header.hash < a.header.hash) c.pairs := by
  have hch := reachable_chain' ev c h
  have hch2 : List.Chain' (fun a b : Pair => b.header.hash < a.header.hash)
      c.pairs := List.Chain'.imp (fun a b hab => adj_hash_lt a b hab) hch
  haveI : IsTrans Pair (fun a b : Pair => b.header.hash < a.header.hash) :=
    ⟨fun _ _ _ h1 h2 => lt_trans h2 h1⟩
  exact List.chain'_iff_pairwise.mp hch2

/-! ### Claim theorems -/

/-- C1: at this concrete input the code accepts a push onto the empty chain of
a Pair whose Header carries a `previous` reference (the looked-up predecessor
and the head are both absent, so the guard passes), while the design requires
such a push to be rejected. -/
theorem c1_empty_chain_accepts_dangling_previous :
    SourceChain.new.push (fun _ => true) ⟨⟨some 0, 7⟩, ⟨7⟩⟩ =
      some ⟨[⟨⟨some 0, 7⟩, ⟨7⟩⟩]⟩ ∧
    (⟨some 0, 7⟩ : Header).previous ≠ none := by decide

/-- C2: a failed `push` — because the Pair does not validate, or because its
Header's `previous` reference does not match the head Header's hash — leaves
the chain exactly as it was: the observable state after the aborted call still
holds the original pairs. -/
theorem c2_failed_push_leaves_chain_unchanged (ev : Entry → Bool)
    (c : SourceChain) (p : Pair) :
    ((c.pushState ev p).2 = false → (c.pushState ev p).1 = c) ∧
    (p.validate ev = false → (c.pushState ev p).2 = false) ∧
    (∀ q : Pair, c.pairs.head? = some q →
      p.header.previous ≠ some q.header.hash →
      (c.pushState ev p).2 = false) := by
  refine ⟨?_, ?_, ?_⟩
  · intro h
    cases hp : c.push ev p with
    | some c2 => simp [SourceChain.pushState, hp] at h
    | none => simp [SourceChain.pushState, hp]
  · intro hv
    cases hp : c.push ev p with
    | some c2 =>
      obtain ⟨h1, -, -⟩ := (push_eq_some_iff ev c p c2).mp hp
      rw [hv] at h1
      cases h1
    | none => simp [SourceChain.pushState, hp]
  · intro q hq hne
    cases hp : c.push ev p with
    | some c2 => exact absurd (push_some_links ev c p c2 q hq hp) hne
    | none => simp [SourceChain.pushState, hp]

/-- C2 witness: pushing a valid genesis-style Pair onto a non-empty chain is
rejected and the chain keeps its single original pair. -/
theorem c2_witness :
    ((SourceChain.mk [⟨⟨none, 5⟩, ⟨5⟩⟩]).pushState (fun _ => true)
        ⟨⟨none, 6⟩, ⟨6⟩⟩).2 = false ∧
    ((SourceChain.mk [⟨⟨none, 5⟩, ⟨5⟩⟩]).pushState (fun _ => true)
        ⟨⟨none, 6⟩, ⟨6⟩⟩).1 = SourceChain.mk [⟨⟨none, 5⟩, ⟨5⟩⟩] := by
  have h := c2_failed_push_leaves_chain_unchanged (fun _ => true)
    (SourceChain.mk [⟨⟨none, 5⟩, ⟨5⟩⟩]) ⟨⟨none, 6⟩, ⟨6⟩⟩
  have h2 := h.2.2 ⟨⟨none, 5⟩, ⟨5⟩⟩ (by decide) (by decide)
  exact ⟨h2, h.1 h2⟩

/-- C3: a successful `push` makes the pushed Pair the new head, grows the
length by exactly one and leaves every previously held Pair unchanged in value
and order; after N successful pushes from a new chain the length is N and the
stored order is the reverse of the push order, so the head is the most
recently pushed Pair. -/
theorem c3_successful_push_postconditions (ev : Entry → Bool) :
    (∀ (c c' : SourceChain) (p : Pair), c.push ev p = some c' →
      c'.pairs = p :: c.pairs ∧ c'.pairs.head? = some p ∧
        c'.pairs.length = c.pairs.length + 1) ∧
    (∀ (ps : List Pair) (c' : SourceChain),
      SourceChain.new.pushList ev ps = some c' →
      c'.pairs = ps.reverse ∧ c'.pairs.length = ps.length ∧
        c'.pairs.head? = ps.getLast?) := by
  constructor
  · intro c c' p h
    obtain ⟨-, -, rfl⟩ := (push_eq_some_iff ev c p c').mp h
    exact ⟨rfl, rfl, rfl⟩
  · intro ps c' h
    have h2 := pushList_pairs ev ps SourceChain.new c' h
    simp only [SourceChain.new, List.append_nil] at h2
    refine ⟨h2, ?_, ?_⟩
    · rw [h2]; simp
    · rw [h2]; exact List.head?_reverse ps

/-- C3 witness: two successful pushes from a new chain produce length 2 with
the second push at the head. -/
theorem c3_witness :
    (SourceChain.mk [⟨⟨some 25, 6⟩, ⟨6⟩⟩, ⟨⟨none, 5⟩, ⟨5⟩⟩]).pairs =
      ([⟨⟨none, 5⟩, ⟨5⟩⟩, ⟨⟨some 25, 6⟩, ⟨6⟩⟩] : List Pair).reverse ∧
    (SourceChain.mk [⟨⟨some 25, 6⟩, ⟨6⟩⟩, ⟨⟨none, 5⟩, ⟨5⟩⟩]).pairs.length =
      ([⟨⟨none, 5⟩, ⟨5⟩⟩, ⟨⟨some 25, 6⟩, ⟨6⟩⟩] : List Pair).length ∧
    (SourceChain.mk [⟨⟨some 25, 6⟩, ⟨6⟩⟩, ⟨⟨none, 5⟩, ⟨5⟩⟩]).pairs.head? =
      ([⟨⟨none, 5⟩, ⟨5⟩⟩, ⟨⟨some 25, 6⟩, ⟨6⟩⟩] : List Pair).getLast? :=
  (c3_successful_push_postconditions (fun _ => true)).2
    [⟨⟨none, 5⟩, ⟨5⟩⟩, ⟨⟨some 25, 6⟩, ⟨6⟩⟩] _ (by decide)

/-- C4: at this concrete input a single successful push from the empty chain
yields a reachable chain whose genesis (last) Pair has a Header with a
`previous` reference present, while the design requires the genesis Header's
`previous` reference to be absent. -/
theorem c4_reachable_genesis_with_previous_present :
    SourceChain.new.pushList (fun _ => true) [⟨⟨some 3, 9⟩, ⟨9⟩⟩] =
      some ⟨[⟨⟨some 3, 9⟩, ⟨9⟩⟩]⟩ ∧
    (SourceChain.mk [⟨⟨some 3, 9⟩, ⟨9⟩⟩]).pairs.getLast? =
      some ⟨⟨some 3, 9⟩, ⟨9⟩⟩ ∧
    (⟨some 3, 9⟩ : Header).previous ≠ none := by decide

/-- C5: whole-chain `validate` returns true iff every held Pair validates
individually; a newly created chain has zero length and validates. -/
theorem c5_validate_iff_all_pairs_validate (ev : Entry → Bool)
    (c : SourceChain) :
    (c.validate ev = true ↔ ∀ p ∈ c.pairs, p.validate ev = true) ∧
    SourceChain.new.pairs.length = 0 ∧ SourceChain.new.validate ev = true := by
  refine ⟨?_, rfl, rfl⟩
  have hfold : ∀ (l : List Pair) (a : Bool),
      l.foldl (fun acc p => acc && p.validate ev) a =
        (a && l.all (fun p => p.validate ev)) := by
    intro l
    induction l with
    | nil => intro a; simp
    | cons p ps ih => intro a; simp [List.foldl, ih, Bool.and_assoc]
  unfold SourceChain.validate
  rw [hfold]
  simp

/-- C5 witness: a concrete one-pair chain validates, obtained through the
characterization. -/
theorem c5_witness :
    (SourceChain.mk [⟨⟨none, 5⟩, ⟨5⟩⟩]).validate (fun _ => true) = true :=
  ((c5_validate_iff_all_pairs_validate (fun _ => true)
      (SourceChain.mk [⟨⟨none, 5⟩, ⟨5⟩⟩])).1).mpr (by decide)

/-- C6: `get` returns the first Pair in head-to-genesis order whose Header
hash equals the given value and `get_entry` the first whose Entry hash equals
it; a miss is the ordinary value `none`, never an error. -/
theorem c6_lookup_first_match (c : SourceChain) (h : Nat) :
    (c.get h = none ↔ ∀ p ∈ c.pairs, p.header.hash ≠ h) ∧
    (∀ p : Pair, c.get h = some p → p.header.hash = h ∧
      ∃ l1 l2, c.pairs = l1 ++ p :: l2 ∧ ∀ q ∈ l1, q.header.hash ≠ h) ∧
    (c.get_entry h = none ↔ ∀ p ∈ c.pairs, p.entry.hash ≠ h) ∧
    (∀ p : Pair, c.get_entry h = some p → p.entry.hash = h ∧
      ∃ l1 l2, c.pairs = l1 ++ p :: l2 ∧ ∀ q ∈ l1, q.entry.hash ≠ h) := by
  refine ⟨get_eq_none c h, ?_, get_entry_eq_none c h, ?_⟩
  · intro p hp
    obtain ⟨l1, l2, hl, hfa, hall⟩ := find?_first _ _ _ hp
    refine ⟨by simpa using hfa, l1, l2, hl, ?_⟩
    intro q hq
    simpa using hall q hq
  · intro p hp
    obtain ⟨l1, l2, hl, hfa, hall⟩ := find?_first _ _ _ hp
    refine ⟨by simpa using hfa, l1, l2, hl, ?_⟩
    intro q hq
    simpa using hall q hq

/-- C6 witness: on a concrete two-pair chain, `get` applied to the head's
Header hash returns the head pair, which sits before a one-element tail. -/
theorem c6_witness :
    (⟨⟨some 25, 6⟩, ⟨6⟩⟩ : Pair).header.hash = 708 ∧
    ∃ l1 l2,
      (SourceChain.mk [⟨⟨some 25, 6⟩, ⟨6⟩⟩, ⟨⟨none, 5⟩, ⟨5⟩⟩]).pairs =
        l1 ++ (⟨⟨some 25, 6⟩, ⟨6⟩⟩ : Pair) :: l2 ∧
      ∀ q ∈ l1, q.header.hash ≠ 708 :=
  (c6_lookup_first_match
      (SourceChain.mk [⟨⟨some 25, 6⟩, ⟨6⟩⟩, ⟨⟨none, 5⟩, ⟨5⟩⟩]) 708).2.1
    ⟨⟨some 25, 6⟩, ⟨6⟩⟩ (by decide)

/-- C7: for a chain built by appending pairs in order, the by-reference
traversal yields them most recent first, and the consuming traversal yields
the same order and the same values. -/
theorem c7_traversal_order (ev : Entry → Bool) (ps : List Pair)
    (c' : SourceChain) (h : SourceChain.new.pushList ev ps = some c') :
    c'.iter = ps.reverse ∧ c'.intoIter = c'.iter := by
  have h2 := pushList_pairs ev ps SourceChain.new c' h
  simp only [SourceChain.new, List.append_nil] at h2
  exact ⟨h2, rfl⟩

/-- C7 witness: a concrete two-push chain traverses most recent first, the
consuming traversal agreeing with the by-reference one. -/
theorem c7_witness :
    (SourceChain.mk [⟨⟨some 25, 6⟩, ⟨6⟩⟩, ⟨⟨none, 5⟩, ⟨5⟩⟩]).iter =
      ([⟨⟨none, 5⟩, ⟨5⟩⟩, ⟨⟨some 25, 6⟩, ⟨6⟩⟩] : List Pair).reverse ∧
    (SourceChain.mk [⟨⟨some 25, 6⟩, ⟨6⟩⟩, ⟨⟨none, 5⟩, ⟨5⟩⟩]).intoIter =
      (SourceChain.mk [⟨⟨some 25, 6⟩, ⟨6⟩⟩, ⟨⟨none, 5⟩, ⟨5⟩⟩]).iter :=
  c7_traversal_order (fun _ => true)
    [⟨⟨none, 5⟩, ⟨5⟩⟩, ⟨⟨some 25, 6⟩, ⟨6⟩⟩] _ (by decide)

/-- C8 counterexample: a chain reachable by two successful pushes holds two
Pairs with the same Entry content hash, so entry-hash uniqueness fails on the
code (push never checks entry uniqueness). -/
theorem c8_counterexample_duplicate_entry_hash :
    SourceChain.new.pushList (fun _ => true)
      [⟨⟨none, 5⟩, ⟨5⟩⟩, ⟨⟨some 25, 5⟩, ⟨5⟩⟩] =
      some ⟨[⟨⟨some 25, 5⟩, ⟨5⟩⟩, ⟨⟨none, 5⟩, ⟨5⟩⟩]⟩ ∧
    ((SourceChain.mk [⟨⟨some 25, 5⟩, ⟨5⟩⟩, ⟨⟨none, 5⟩, ⟨5⟩⟩]).pairs.filter
      (fun p => p.entry.hash == 5)).length = 2 := by decide

/-- C8 (amended): in every chain reachable from a new chain by successful
pushes the Header content hashes are pairwise distinct, so a Header-hash
lookup's first match is its only match; Entry hashes may repeat. -/
theorem c8_header_hashes_unique (ev : Entry → Bool) (c : SourceChain)
    (h : c.Reachable ev) :
    List.Pairwise (fun a b => a.header.hash ≠ b.header.hash) c.pairs :=
  (reachable_pairwise_hash_gt ev c h).imp fun hab => ne_of_gt hab

/-- C8 witness: a concrete reachable two-pair chain has pairwise distinct
Header hashes. -/
theorem c8_witness :
    List.Pairwise (fun a b : Pair => a.header.hash ≠ b.header.hash)
      (SourceChain.mk [⟨⟨some 25, 6⟩, ⟨6⟩⟩, ⟨⟨none, 5⟩, ⟨5⟩⟩]).pairs :=
  c8_header_hashes_unique (fun _ => true) _
    ⟨[⟨⟨none, 5⟩, ⟨5⟩⟩, ⟨⟨some 25, 6⟩, ⟨6⟩⟩], by decide⟩

/-- C9: `push` never requires entry uniqueness: any validating Pair whose
Header references the head Header's hash is accepted, with no condition on its
Entry, so an Entry hash already present in the chain may be pushed again. -/
theorem c9_push_allows_duplicate_entries (ev : Entry → Bool)
    (c : SourceChain) (p q : Pair) (hq : c.pairs.head? = some q)
    (hv : p.validate ev = true)
    (hl : p.header.previous = some q.header.hash) :
    c.push ev p = some ⟨p :: c.pairs⟩ := by
  rw [push_eq_some_iff]
  refine ⟨hv, ?_, rfl⟩
  unfold SourceChain.previousPair
  rw [hl]
  show c.pairs.head? = c.get q.header.hash
  cases hp : c.pairs with
  | nil => rw [hp] at hq; cases hq
  | cons q0 rest =>
    rw [hp] at hq
    injection hq with hq0
    subst hq0
    unfold SourceChain.get
    rw [hp]
    rw [List.find?_cons_of_pos _ (by simp)]
    rfl

/-- C9 witness: a Pair whose Entry hash equals the Entry hash of the pair
already in the chain is pushed successfully. -/
theorem c9_witness :
    (SourceChain.mk [⟨⟨none, 5⟩, ⟨5⟩⟩]).push (fun _ => true)
        ⟨⟨some 25, 5⟩, ⟨5⟩⟩ =
      some ⟨[⟨⟨some 25, 5⟩, ⟨5⟩⟩, ⟨⟨none, 5⟩, ⟨5⟩⟩]⟩ :=
  c9_push_allows_duplicate_entries (fun _ => true)
    (SourceChain.mk [⟨⟨none, 5⟩, ⟨5⟩⟩]) ⟨⟨some 25, 5⟩, ⟨5⟩⟩
    ⟨⟨none, 5⟩, ⟨5⟩⟩ rfl (by decide) (by decide)

/-- C10: every chain operation is deterministic: equal chains and equal
arguments give equal results for validate, the two lookups, both traversals
and push, and two chains built from `new` by the same successful pushes are
equal. -/
theorem c10_operations_deterministic (ev : Entry → Bool) :
    (∀ c1 c2 : SourceChain, c1 = c2 →
      c1.validate ev = c2.validate ev ∧
      (∀ h : Nat, c1.get h = c2.get h ∧ c1.get_entry h = c2.get_entry h) ∧
      c1.iter = c2.iter ∧ c1.intoIter = c2.intoIter ∧
      (∀ p : Pair, c1.push ev p = c2.push ev p)) ∧
    (∀ (ps : List Pair) (c1 c2 : SourceChain),
      SourceChain.new.pushList ev ps = some c1 →
      SourceChain.new.pushList ev ps = some c2 → c1 = c2) := by
  constructor
  · rintro c1 c2 rfl
    exact ⟨rfl, fun _ => ⟨rfl, rfl⟩, rfl, rfl, fun _ => rfl⟩
  · intro ps c1 c2 h1 h2
    rw [h1] at h2
    exact Option.some.inj h2

/-- C10 witness: determinism applied to a concrete chain and to a concrete
pair of identical push sequences. -/
theorem c10_witness :
    SourceChain.new.validate (fun _ => true) =
      SourceChain.new.validate (fun _ => true) ∧
    SourceChain.mk [⟨⟨none, 5⟩, ⟨5⟩⟩] = SourceChain.mk [⟨⟨none, 5⟩, ⟨5⟩⟩] :=
  ⟨((c10_operations_deterministic (fun _ => true)).1
      SourceChain.new SourceChain.new rfl).1,
    (c10_operations_deterministic (fun _ => true)).2 [⟨⟨none, 5⟩, ⟨5⟩⟩]
      (SourceChain.mk [⟨⟨none, 5⟩, ⟨5⟩⟩])
      (SourceChain.mk [⟨⟨none, 5⟩, ⟨5⟩⟩]) (by decide) (by decide)⟩

end HC
